import Mathlib

/-!
Shallow embedding of the time-stepping FSI coupling engine and its adjoint
from the vf-fem repository (src/femvf/forward.py, src/femvf/adjoint.py,
src/femvf/forms.py), together with proofs settling the frozen claims about
that code.

Scalar quantities that the Python code stores in floating point are modelled
exactly over the rationals (for control-flow and tolerance bookkeeping, and
for the adjoint linear algebra) or over the reals (where the code takes cube
roots and l2 norms).  FEM solves performed by external libraries are
abstracted into oracle parameters; everything the repository's own code
computes is translated directly.
-/

namespace VfFem

open Matrix

/-! ## Solver parameter dictionaries, forward.py lines 20-21 -/

/-- A solver-parameter dictionary holding the two tolerance entries that
the fixed-point loop of `implicit_increment` reads. -/
structure SolverPrm where
  absolute_tolerance : ℚ
  relative_tolerance : ℚ
deriving DecidableEq

/-- forward.py line 20: the default Newton solver parameters
`{'absolute_tolerance': 1e-8, 'relative_tolerance': 1e-10}` (the
`linear_solver` entry is irrelevant to the tolerances and omitted). -/
def DEFAULT_NEWTON_SOLVER_PRM : SolverPrm :=
  { absolute_tolerance := 1 / 10 ^ 8, relative_tolerance := 1 / 10 ^ 10 }

/-- forward.py line 21: `FIXEDPOINT_SOLVER_PRM`, a module-level constant
`{'absolute_tolerance': 1e-8, 'relative_tolerance': 1e-11}`.  No function in
the repository ever reads this dictionary. -/
def FIXEDPOINT_SOLVER_PRM : SolverPrm :=
  { absolute_tolerance := 1 / 10 ^ 8, relative_tolerance := 1 / 10 ^ 11 }

/-- forward.py lines 384-385: `implicit_increment` replaces a `None`
`newton_solver_prm` argument by `DEFAULT_NEWTON_SOLVER_PRM`; line 394 then
reads the fixed-point tolerances out of that same dictionary. -/
def implicitIncrementPrm (newton_solver_prm : Option SolverPrm) : SolverPrm :=
  newton_solver_prm.getD DEFAULT_NEWTON_SOLVER_PRM

/-- The fixed-point coupling loop of `implicit_increment`, forward.py lines
393-417.  The FEM solves inside the loop body are abstracted by an oracle
`resNorm : ℕ → ℚ`: `resNorm 0` is the l2 norm of the Dirichlet-projected
initial residual `res0` (line 390, stored in `abs_err0`), and for `k ≥ 1`,
`resNorm k` is the l2 norm of the Dirichlet-projected residual reassembled
at the end of the k-th execution of the loop body (lines 411-414).  Because
`abs_err` and `rel_err` start at `np.inf` (line 395), the body always runs
at least once for finite tolerances, so the `while` loop is modelled as a
do-while; the loop is given explicit fuel and returns the final value of
`nit` on termination, `none` when the fuel runs out. -/
def implicitFixedPointLoop (abs_tol rel_tol : ℚ) (resNorm : ℕ → ℚ) :
    ℕ → ℕ → Option ℕ
  | 0, _ => none
  | fuel + 1, nit =>
    let abs_err := resNorm (nit + 1)
    let rel_err := abs_err / resNorm 0
    if abs_tol < abs_err ∧ rel_tol < rel_err then
      implicitFixedPointLoop abs_tol rel_tol resNorm fuel (nit + 1)
    else
      some (nit + 1)

/-- Time-sequence check performed by `integrate`, forward.py lines 226-230:
it raises `ValueError` when the last entry is smaller than the first or the
sequence has at most one entry, and indexing `times[-1]` on an empty
sequence raises as well.  The boolean is `true` exactly when the Python code
raises. -/
def integrateTimesError : List ℚ → Bool
  | [] => true
  | t :: ts => decide (ts.getLastD t < t) || decide ((t :: ts).length ≤ 1)

/-- Time-sequence check performed by `integrate_adaptive`, forward.py lines
103-107 (identical logic applied to `tmeas`). -/
def integrateAdaptiveTimesError : List ℚ → Bool
  | [] => true
  | t :: ts => decide (ts.getLastD t < t) || decide ((t :: ts).length ≤ 1)

/-- Residual-norm oracle for the witnesses: initial norm 1, then 0 after the
first iteration. -/
def resNormDrop : ℕ → ℚ := fun n => if n = 0 then 1 else 0

/-- Residual-norm oracle for the non-convergent witness: constantly 1. -/
def resNormStuck : ℕ → ℚ := fun _ => 1

/-! ## The forward Newmark state update and the adaptive step controller

These parts of the code manipulate real vectors (cube roots and l2 norms
appear), so they are modelled over `ℝ`. -/

/-- A solid DOF vector. -/
abbrev RVec (m : ℕ) := Fin m → ℝ

noncomputable section

/-- Newmark parameter γ: forms.py line 80 fixes `gamma = 1/2`, and the spec
(4.1) gives the same default used by the `solids` module. -/
def newmark_gamma : ℝ := 1 / 2

/-- Newmark parameter β: forms.py line 81 fixes `beta = 1/4`, likewise the
spec default. -/
def newmark_beta : ℝ := 1 / 4

/-- Modelled from the spec: `newmark_a` lives in the `solids` module, which
is not among the provided sources (forward.py line 13 imports it and lines
337/403 call it).  Spec 4.1: `a₁ = (u₁ − u₀ − dt·v₀ − dt²(½−β)a₀)/(β dt²)`. -/
def newmark_a {m : ℕ} (u1 u0 v0 a0 : RVec m) (dt gamma beta : ℝ) : RVec m :=
  fun i => (u1 i - u0 i - dt * v0 i - dt ^ 2 * (1 / 2 - beta) * a0 i) / (beta * dt ^ 2)

/-- Modelled from the spec: `newmark_v` from the missing `solids` module.
Spec 4.1: `v₁ = v₀ + dt[(1−γ)a₀ + γa₁]`, with `a₁` solved first. -/
def newmark_v {m : ℕ} (u1 u0 v0 a0 : RVec m) (dt gamma beta : ℝ) : RVec m :=
  fun i => v0 i + dt * ((1 - gamma) * a0 i
    + gamma * newmark_a u1 u0 v0 a0 dt gamma beta i)

/-- The Newmark displacement update read backwards: the displacement that
the relations of spec 4.1 associate with a given `a₁`.  Used to state the
algebraic round-trip of claim C9. -/
def newmark_u_from_a {m : ℕ} (u0 v0 a0 a1 : RVec m) (dt beta : ℝ) : RVec m :=
  fun i => u0 i + dt * v0 i + dt ^ 2 * ((1 / 2 - beta) * a0 i + beta * a1 i)

/-- forward.py lines 329-337 (`explicit_increment`): the nonlinear solid
solve produces `u1` (abstracted into the oracle argument `solveU1`), and
`v1`, `a1` are then derived from it by the Newmark closed forms with the
default γ, β. -/
def explicit_increment_uva {m : ℕ} (solveU1 u0 v0 a0 : RVec m) (dt : ℝ) :
    RVec m × RVec m × RVec m :=
  (solveU1,
   newmark_v solveU1 u0 v0 a0 dt newmark_gamma newmark_beta,
   newmark_a solveU1 u0 v0 a0 dt newmark_gamma newmark_beta)

/-- forward.py lines 398-403 (`implicit_increment`): inside every
fixed-point iteration, and hence at the accepted step, `v1` and `a1` are
derived from the Newton-solved `u1` by the same Newmark closed forms. -/
def implicit_increment_uva {m : ℕ} (solveU1 u0 v0 a0 : RVec m) (dt : ℝ) :
    RVec m × RVec m × RVec m :=
  (solveU1,
   newmark_v solveU1 u0 v0 a0 dt newmark_gamma newmark_beta,
   newmark_a solveU1 u0 v0 a0 dt newmark_gamma newmark_beta)

/-- The l2 norm of a DOF vector, as computed by `.norm('l2')`. -/
def l2norm {m : ℕ} (v : RVec m) : ℝ := Real.sqrt (∑ i, v i ^ 2)

/-- forward.py lines 548-575: the Zienkiewicz-Xie local truncation error
estimate `0.5*dt**2*(2*beta - 1/3)*(a1-a0)`. -/
def newmark_error_estimate {m : ℕ} (a1 a0 : RVec m) (dt beta : ℝ) : RVec m :=
  fun i => 1 / 2 * dt ^ 2 * (2 * beta - 1 / 3) * (a1 i - a0 i)

/-- Modelled from the spec: `refine_initial_collision` is called at
forward.py line 481 but its definition is missing from the provided sources
(the comment at line 480 records that it was deleted and survives only in an
old commit).  Spec 4.3 step 3: detect a sign change of the gap function
between the start state and the trial end state; if detected, bisect `dt`
and request a retry; this check takes priority over the accuracy rule. -/
def refine_initial_collision {m : ℕ} (gap : RVec m → ℝ) (u0 u1 : RVec m)
    (dt : ℝ) : Bool × ℝ :=
  if gap u0 * gap u1 < 0 then (true, dt / 2) else (false, dt)

/-- What one call of `adaptive_step` (forward.py lines 460-490) returns,
restricted to the quantities the claims are about: the accepted solid state,
the dt of the accepted attempt, its error-estimate norm, and the final
refinement count `info['nrefine']`.  The fluid state and fluid info dict are
bookkeeping threaded through unchanged and are omitted. -/
structure AdaptiveResult (m : ℕ) where
  uva1 : RVec m × RVec m × RVec m
  dt : ℝ
  err_norm : ℝ
  nrefine : ℕ

/-- The refinement loop of `adaptive_step`, forward.py lines 460-490.
`inc` abstracts `explicit_increment` (dt ↦ the resulting `uva1`; the start
state `uva0` is fixed), `gap` is the collision gap function consulted by the
spec-modelled `refine_initial_collision`.  Per iteration the code runs one
explicit increment, computes the Zienkiewicz-Xie error norm, and, when
`abs_tol` is not None, first lets the collision check possibly bisect `dt`
and set the refine flag, then, if the error norm leaves the band
`[abs_tol_bounds[0]*abs_tol, abs_tol_bounds[1]*abs_tol]`, rescales the
(collision-adjusted) `dt` by `(abs_tol/err_norm)**(1/3)` and forces a
retry.  When `abs_tol` is None the attempt is accepted immediately.  The
loop carries explicit fuel and the running `nrefine` counter (which starts
at `-1` in the source and is incremented on loop entry, so the accumulator
below holds the number of completed retries). -/
def adaptive_step_loop {m : ℕ} (inc : ℝ → RVec m × RVec m × RVec m)
    (gap : RVec m → ℝ) (beta : ℝ) (abs_tol : Option ℝ)
    (abs_tol_bounds : ℝ × ℝ) (uva0 : RVec m × RVec m × RVec m) :
    ℕ → ℝ → ℕ → Option (AdaptiveResult m)
  | 0, _, _ => none
  | fuel + 1, dt, nrefine =>
    let uva1 := inc dt
    let err_norm := l2norm (newmark_error_estimate uva1.2.2 uva0.2.2 dt beta)
    match abs_tol with
    | none => some ⟨uva1, dt, err_norm, nrefine⟩
    | some tol =>
      let rc := refine_initial_collision gap uva0.1 uva1.1 dt
      if err_norm > abs_tol_bounds.2 * tol ∨ err_norm < abs_tol_bounds.1 * tol then
        adaptive_step_loop inc gap beta abs_tol abs_tol_bounds uva0 fuel
          ((tol / err_norm) ^ ((1 : ℝ) / 3) * rc.2) (nrefine + 1)
      else if rc.1 then
        adaptive_step_loop inc gap beta abs_tol abs_tol_bounds uva0 fuel
          rc.2 (nrefine + 1)
      else
        some ⟨uva1, rc.2, err_norm, nrefine⟩

/-- forward.py lines 66-67: the `adaptive_step_prm` that `integrate_adaptive`
installs when the caller passes `None`:
`{'abs_tol': None, 'abs_tol_bounds': (0.0, 0.0)}`. -/
def default_adaptive_step_prm : Option ℝ × ℝ × ℝ := (none, 0, 0)

/-! Concrete one-DOF data for the adaptive-step counterexample and
witnesses. -/

/-- Start displacement, gap value `1`. -/
def cU0 : RVec 1 := fun _ => 1

/-- Zero velocity vector. -/
def cV0 : RVec 1 := fun _ => 0

/-- Zero start acceleration. -/
def cA0 : RVec 1 := fun _ => 0

/-- Trial displacement after the first attempt, gap value `-1` (the
interface crossed the midline). -/
def cUneg : RVec 1 := fun _ => -1

/-- Trial acceleration after the first attempt. -/
def cA12 : RVec 1 := fun _ => 12

/-- Trial acceleration after the retry with the bisected step. -/
def cA48 : RVec 1 := fun _ => 48

/-- The start state for the counterexample run. -/
def cUva0 : RVec 1 × RVec 1 × RVec 1 := (cU0, cV0, cA0)

/-- Increment oracle for the counterexample run: the attempt at `dt = 1`
crosses the midline with error-estimate norm exactly `abs_tol`; the retry
at `dt = 1/2` stays on the start side with the same error norm. -/
def cInc : ℝ → RVec 1 × RVec 1 × RVec 1 :=
  fun dt => if dt = 1 then (cUneg, cV0, cA12) else (cU0, cV0, cA48)

/-- Gap function for the counterexample run: the (single) displacement DOF
itself. -/
def cGap : RVec 1 → ℝ := fun u => u 0

end

/-! ## The adjoint recurrence engine, adjoint.py

The adjoint works on assembled FEM matrices.  Assembly of a UFL form is
external; the tangent Jacobian blocks of the two residuals `f^{n+2}` and
`f^{n+1}` (evaluated at the forward states that adjoint.py lines 82-108 load
into the form coefficients) are oracles gathered in `AdjointStepData`.
`dfn.adjoint` of a bilinear form assembles the transpose of the tangent
matrix, and `dfn.DirichletBC.apply` with the homogeneous BC of forms.py line
172 zeroes BC rows of a vector, or replaces BC rows of a matrix by unit
rows and zeroes the same rows of the paired vector.  Linear solves are an
oracle `lsolve`.  The adjoint linear algebra is exact, over `ℚ`. -/

/-- A solid DOF vector for the adjoint computation (exact arithmetic). -/
abbrev QVec (n : ℕ) := Fin n → ℚ

/-- `DirichletBC.apply` on a vector with the homogeneous base BC: zero the
BC DOFs. -/
def applyBCvec {m : ℕ} (bc : Fin m → Bool) (v : QVec m) : QVec m :=
  fun i => if bc i then 0 else v i

/-- `DirichletBC.apply` on a matrix with the homogeneous base BC: replace
each BC row by the corresponding unit row. -/
def applyBCmat {m : ℕ} (bc : Fin m → Bool) (A : Matrix (Fin m) (Fin m) ℚ) :
    Matrix (Fin m) (Fin m) ℚ :=
  Matrix.of fun i j => if bc i then (if i = j then 1 else 0) else A i j

/-- The tangent Jacobian blocks assembled during one `decrement_adjoint`
call (adjoint.py lines 82-108): `m` solid DOFs, `p` surface-pressure DOFs,
`s` parameter (elastic modulus) DOFs.  Each `assemble(..._adjoint)` in the
source produces the transpose of the corresponding tangent block below. -/
structure AdjointStepData (m p s : ℕ) where
  J2_du1 : Matrix (Fin m) (Fin m) ℚ
  J2_dv1 : Matrix (Fin m) (Fin m) ℚ
  J2_da1 : Matrix (Fin m) (Fin m) ℚ
  J2_dp : Matrix (Fin m) (Fin p) ℚ
  dp_du0 : Matrix (Fin p) (Fin m) ℚ
  J1_du1 : Matrix (Fin m) (Fin m) ℚ
  J1_dparam : Matrix (Fin m) (Fin s) ℚ

/-- adjoint.py lines 91-97: the du1 Jacobian block of the step-(n+1,n+2)
residual actually used in the adjoint recurrence — the assembled structural
adjoint block `df1_du0_adjoint` plus the pressure-dependent correction
`dpressure_du0.transposeMatMult(df2_dpressure)`. -/
def df2_du1_used {m p s : ℕ} (data : AdjointStepData m p s) :
    Matrix (Fin m) (Fin m) ℚ :=
  (data.J2_du1)ᵀ + (data.dp_du0)ᵀ * (data.J2_dp)ᵀ

/-- adjoint.py lines 40-142, `decrement_adjoint`: one backward step of the
adjoint recurrence.  Computes `adj_a1` and `adj_v1` by explicit matrix
algebra, applies the (homogeneous, adjoint) base Dirichlet BC to each,
builds the right-hand side for `adj_u1`, applies the BC to the system, and
solves with the assembled `df1_du1_adjoint` matrix; returns the adjoint
triple and the assembled `df1_dparam` adjoint block used afterwards for the
gradient update. -/
def decrement_adjoint {m p s : ℕ} (bc : Fin m → Bool)
    (lsolve : Matrix (Fin m) (Fin m) ℚ → QVec m → QVec m)
    (gamma beta : ℚ) (data : AdjointStepData m p s)
    (adj2 : QVec m × QVec m × QVec m) (dt1 dt2 : ℚ) (dcost_du1 : QVec m) :
    (QVec m × QVec m × QVec m) × Matrix (Fin s) (Fin m) ℚ :=
  let adj_u2 := adj2.1
  let adj_v2 := adj2.2.1
  let adj_a2 := adj2.2.2
  let df2_du1 := df2_du1_used data
  let df2_dv1 := (data.J2_dv1)ᵀ
  let df2_da1 := (data.J2_da1)ᵀ
  let df1_du1 := (data.J1_du1)ᵀ
  let df1_dparam := (data.J1_dparam)ᵀ
  let adj_a1 := applyBCvec bc ((-1 : ℚ) • (df2_da1.mulVec adj_u2
    + (dt2 * (gamma / 2 / beta - 1)) • adj_v2
    + (1 / 2 / beta - 1) • adj_a2))
  let adj_v1 := applyBCvec bc ((-1 : ℚ) • (df2_dv1.mulVec adj_u2
    + (gamma / beta - 1) • adj_v2
    + (1 / beta / dt2) • adj_a2))
  let adj_u1_lhs := dcost_du1 + (gamma / beta / dt1) • adj_v1
    + (1 / beta / dt1 ^ 2) • adj_a1
    - (df2_du1.mulVec adj_u2 + (gamma / beta / dt2) • adj_v2
      + (1 / beta / dt2 ^ 2) • adj_a2)
  let adj_u1 := lsolve (applyBCmat bc df1_du1) (applyBCvec bc adj_u1_lhs)
  ((adj_u1, adj_v1, adj_a1), df1_dparam)

/-- adjoint.py lines 191-207: the terminal condition of the backward
recursion.  `J_du1` is the tangent du1-Jacobian of the final solid residual
(the source assembles `df1_du1_adjoint`, its transpose); the BC is applied
to the system and the terminal cost gradient is the right-hand side;
`adj_v` and `adj_a` are set to zero. -/
def adjoint_terminal_init {m : ℕ} (bc : Fin m → Bool)
    (lsolve : Matrix (Fin m) (Fin m) ℚ → QVec m → QVec m)
    (J_du1 : Matrix (Fin m) (Fin m) ℚ) (dcost_du2 : QVec m) :
    QVec m × QVec m × QVec m :=
  let df2_du2 := (J_du1)ᵀ
  let adj_u2 := lsolve (applyBCmat bc df2_du2) (applyBCvec bc dcost_du2)
  (adj_u2, (0 : QVec m), (0 : QVec m))

/-- adjoint.py lines 213-242: the backward loop over `ii = N-2, ..., 1`.
The loop counter below is `ii` itself; each iteration runs
`decrement_adjoint` on the per-index assembled data `steps ii` with
`dt1 = times[ii] - times[ii-1]` and `dt2 = times[ii+1] - times[ii]`
(`dts j` stands for `times[j] - times[j-1]`), then subtracts
`df1_dparam * adj_u1` from the gradient accumulator (line 237). -/
def adjoint_gradient_loop {m p s : ℕ} (bc : Fin m → Bool)
    (lsolve : Matrix (Fin m) (Fin m) ℚ → QVec m → QVec m)
    (gamma beta : ℚ) (steps : ℕ → AdjointStepData m p s) (dts : ℕ → ℚ)
    (dcosts : ℕ → QVec m) :
    ℕ → (QVec m × QVec m × QVec m) → (Fin s → ℚ) →
      (QVec m × QVec m × QVec m) × (Fin s → ℚ)
  | 0, adj2, grad => (adj2, grad)
  | k + 1, adj2, grad =>
    let r := decrement_adjoint bc lsolve gamma beta (steps (k + 1)) adj2
      (dts (k + 1)) (dts (k + 2)) (dcosts (k + 1))
    adjoint_gradient_loop bc lsolve gamma beta steps dts dcosts k r.1
      (grad - (r.2).mulVec r.1.1)

/-- The total gradient contribution of the backward loop started at counter
`k` with adjoint state `adj2`: the sum of `-(df1_dparam)ᵀ · adj_u` over the
processed steps, where the `adj_u` are the successive u-components of the
adjoint trajectory generated by `decrement_adjoint`.  Only the u-components
enter; the v- and a-components influence the sum solely through the
recurrence. -/
def adjointContrib {m p s : ℕ} (bc : Fin m → Bool)
    (lsolve : Matrix (Fin m) (Fin m) ℚ → QVec m → QVec m)
    (gamma beta : ℚ) (steps : ℕ → AdjointStepData m p s) (dts : ℕ → ℚ)
    (dcosts : ℕ → QVec m) :
    ℕ → (QVec m × QVec m × QVec m) → (Fin s → ℚ)
  | 0, _ => 0
  | k + 1, adj2 =>
    let r := decrement_adjoint bc lsolve gamma beta (steps (k + 1)) adj2
      (dts (k + 1)) (dts (k + 2)) (dcosts (k + 1))
    (-1 : ℚ) • ((r.2).mulVec r.1.1)
      + adjointContrib bc lsolve gamma beta steps dts dcosts k r.1

/-- adjoint.py lines 163-242, `adjoint`: allocate the gradient accumulator
as the zero vector (line 173), add the terminal contribution
`-1*df2_dparam*adj_u2 + 0` (line 210) after the terminal solve, then run
the backward loop from `ii = N-2`.  `terminal_dfparam` is the tangent
parameter Jacobian of the final residual; the source assembles its
transpose (`dfu_dparam_form_adjoint`). -/
def adjoint_full {m p s : ℕ} (bc : Fin m → Bool)
    (lsolve : Matrix (Fin m) (Fin m) ℚ → QVec m → QVec m)
    (gamma beta : ℚ) (steps : ℕ → AdjointStepData m p s) (dts : ℕ → ℚ)
    (dcosts : ℕ → QVec m) (N : ℕ)
    (terminalJ : Matrix (Fin m) (Fin m) ℚ)
    (terminal_dfparam : Matrix (Fin m) (Fin s) ℚ) (dcostN : QVec m) :
    Fin s → ℚ :=
  let adj2 := adjoint_terminal_init bc lsolve terminalJ dcostN
  let gradient0 : Fin s → ℚ := 0
  let gradient1 := gradient0
    + (-1 : ℚ) • ((terminal_dfparam)ᵀ.mulVec adj2.1) + 0
  (adjoint_gradient_loop bc lsolve gamma beta steps dts dcosts (N - 2)
    adj2 gradient1).2

/-! Concrete one-DOF data for the adjoint witnesses. -/

/-- All DOFs carry the Dirichlet BC in the witness instance. -/
def bcAll : Fin 1 → Bool := fun _ => true

/-- Witness linear-solve oracle: with every row a BC row the projected
system matrix is the identity, so returning the right-hand side solves it. -/
def qSolveId : Matrix (Fin 1) (Fin 1) ℚ → QVec 1 → QVec 1 := fun _ b => b

/-- Witness Jacobian data. -/
def dataW : AdjointStepData 1 1 1 :=
  ⟨Matrix.of fun _ _ => 2, Matrix.of fun _ _ => 3, Matrix.of fun _ _ => 5,
   Matrix.of fun _ _ => 7, Matrix.of fun _ _ => 11, Matrix.of fun _ _ => 13,
   Matrix.of fun _ _ => 17⟩

/-- Witness incoming adjoint triple. -/
def adjW : QVec 1 × QVec 1 × QVec 1 := (fun _ => 3, fun _ => 4, fun _ => 5)

/-- Witness cost gradient. -/
def dcW : QVec 1 := fun _ => 6

/-- Witness terminal Jacobian. -/
def termJW : Matrix (Fin 1) (Fin 1) ℚ := Matrix.of fun _ _ => 2

/-- Witness terminal cost gradient. -/
def dcostNW : QVec 1 := fun _ => 9

/-! ## Theorems -/

/-- A strictly increasing chain starting at `t` ends at a value no smaller
than `t`. -/
theorem le_getLastD_of_chain_lt (t : ℚ) (ts : List ℚ)
    (h : List.Chain' (fun a b : ℚ => a < b) (t :: ts)) : t ≤ ts.getLastD t := by
  induction ts generalizing t with
  | nil => simp [List.getLastD]
  | cons b bs ih =>
    rw [List.chain'_cons] at h
    rw [List.getLastD_cons]
    exact le_trans (le_of_lt h.1) (ih b h.2)

/-- Claim C7, counterexample: `[0, 0]` is not strictly increasing and has 2
entries, yet neither `integrate` nor `integrate_adaptive` raises on it,
because the code only compares the last entry against the first. -/
theorem times_check_misses_nonmonotone :
    ¬ List.Chain' (fun a b : ℚ => a < b) [(0 : ℚ), 0] ∧
    integrateTimesError [(0 : ℚ), 0] = false ∧
    integrateAdaptiveTimesError [(0 : ℚ), 0] = false := by
  refine ⟨?_, rfl, rfl⟩
  simp [List.chain'_cons]

/-- Claim C7 (amended): `integrate` and `integrate_adaptive` raise on a time
sequence exactly when its final entry is smaller than its first entry or it
has fewer than 2 entries; in particular every strictly increasing sequence
of length at least 2 passes the check, but a non-monotonic sequence whose
last entry is at least its first entry also passes undetected. -/
theorem times_check_characterization (t : ℚ) (ts : List ℚ) :
    (integrateTimesError (t :: ts) = true ↔
      (ts.getLastD t < t ∨ (t :: ts).length ≤ 1)) ∧
    (integrateAdaptiveTimesError (t :: ts) = true ↔
      (ts.getLastD t < t ∨ (t :: ts).length ≤ 1)) ∧
    (List.Chain' (fun a b : ℚ => a < b) (t :: ts) → 2 ≤ (t :: ts).length →
      integrateTimesError (t :: ts) = false ∧
      integrateAdaptiveTimesError (t :: ts) = false) := by
  refine ⟨?_, ?_, ?_⟩
  · simp [integrateTimesError]
  · simp [integrateAdaptiveTimesError]
  · intro hchain hlen
    have hle : t ≤ ts.getLastD t := le_getLastD_of_chain_lt t ts hchain
    have hle2 : t ≤ ts.getLast?.getD t := by
      simpa [List.getLastD_eq_getLast?] using hle
    have hne : ts ≠ [] := by
      cases ts with
      | nil => simp at hlen
      | cons a l => simp
    constructor
    · simp only [integrateTimesError]
      simp [hne]
      exact hle2
    · simp only [integrateAdaptiveTimesError]
      simp [hne]
      exact hle2

/-- Witness for `times_check_characterization` at the strictly increasing
sequence `[0, 1]`. -/
theorem times_check_characterization_witness :
    integrateTimesError [(0 : ℚ), 1] = false ∧
    integrateAdaptiveTimesError [(0 : ℚ), 1] = false :=
  (times_check_characterization 0 [1]).2.2 (by simp [List.chain'_cons]) (by simp)

/-- Claim C5, counterexample: with `newton_solver_prm=None`, the relative
tolerance governing the fixed-point loop of `implicit_increment` is the
`1e-10` of `DEFAULT_NEWTON_SOLVER_PRM`, not the `1e-11` of the (unused)
`FIXEDPOINT_SOLVER_PRM` dictionary. -/
theorem fixedpoint_default_tolerance_mismatch :
    implicitIncrementPrm none = DEFAULT_NEWTON_SOLVER_PRM ∧
    (implicitIncrementPrm none).relative_tolerance = 1 / 10 ^ 10 ∧
    (implicitIncrementPrm none).relative_tolerance ≠
      FIXEDPOINT_SOLVER_PRM.relative_tolerance ∧
    FIXEDPOINT_SOLVER_PRM.relative_tolerance = 1 / 10 ^ 11 := by
  refine ⟨rfl, rfl, ?_, rfl⟩
  intro hcon
  have : (1 / 10 ^ 10 : ℚ) = 1 / 10 ^ 11 := hcon
  norm_num at this

/-- Claim C5 (amended): the fixed-point loop of `implicit_increment` exits
exactly when `abs_err ≤ abs_tol` or `rel_err ≤ rel_tol`, where `abs_err` is
the l2 norm of the Dirichlet-projected residual and `rel_err` is `abs_err`
divided by the residual norm `resNorm 0` computed at the start of the
iteration; every earlier iterate failed both tests.  When no solver
parameters are passed the tolerances used are absolute `1e-8` and relative
`1e-10`, taken from `DEFAULT_NEWTON_SOLVER_PRM`. -/
theorem fixedpoint_loop_exit_condition (abs_tol rel_tol : ℚ) (resNorm : ℕ → ℚ)
    (fuel nit k : ℕ)
    (h : implicitFixedPointLoop abs_tol rel_tol resNorm fuel nit = some k) :
    (resNorm k ≤ abs_tol ∨ resNorm k / resNorm 0 ≤ rel_tol) ∧
    (∀ j, nit < j → j < k →
      abs_tol < resNorm j ∧ rel_tol < resNorm j / resNorm 0) ∧
    (implicitIncrementPrm none).absolute_tolerance = 1 / 10 ^ 8 ∧
    (implicitIncrementPrm none).relative_tolerance = 1 / 10 ^ 10 := by
  refine ⟨?_, ?_, rfl, rfl⟩
  · induction fuel generalizing nit with
    | zero => exact absurd h (by simp [implicitFixedPointLoop])
    | succ n ih =>
      rw [implicitFixedPointLoop] at h
      by_cases hc : abs_tol < resNorm (nit + 1) ∧
          rel_tol < resNorm (nit + 1) / resNorm 0
      · rw [if_pos hc] at h
        exact ih (nit + 1) h
      · rw [if_neg hc] at h
        have hk : nit + 1 = k := Option.some_injective _ h
        rw [not_and_or, not_lt, not_lt] at hc
        rw [← hk]
        exact hc
  · induction fuel generalizing nit with
    | zero => exact absurd h (by simp [implicitFixedPointLoop])
    | succ n ih =>
      rw [implicitFixedPointLoop] at h
      by_cases hc : abs_tol < resNorm (nit + 1) ∧
          rel_tol < resNorm (nit + 1) / resNorm 0
      · rw [if_pos hc] at h
        intro j hj1 hj2
        rcases Nat.lt_or_ge (nit + 1) j with hgt | hle
        · exact ih (nit + 1) h j hgt hj2
        · have : j = nit + 1 := le_antisymm hle hj1
          rw [this]
          exact hc
      · rw [if_neg hc] at h
        have hk : nit + 1 = k := Option.some_injective _ h
        intro j hj1 hj2
        omega

/-- Witness for `fixedpoint_loop_exit_condition`: with tolerances 1/2 and
residual norms dropping to 0, the loop exits after one iteration and the
exit test holds there. -/
theorem fixedpoint_loop_exit_condition_witness :
    resNormDrop 1 ≤ 1 / 2 ∨ resNormDrop 1 / resNormDrop 0 ≤ 1 / 2 :=
  (fixedpoint_loop_exit_condition (1 / 2) (1 / 2) resNormDrop 3 0 1
    (by norm_num [implicitFixedPointLoop, resNormDrop])).1

/-- Claim C8: the fixed-point loop of `implicit_increment` has no hard
iteration cap.  The guard at forward.py line 396 compares only the residual
norms against the tolerances and never consults the iteration counter
`nit`, so on any input whose residual norms never satisfy the convergence
criterion the loop runs forever (no fuel suffices), and since the function
body contains no raise statement, no coupling-divergence error is ever
produced. -/
theorem fixedpoint_loop_no_iteration_cap (abs_tol rel_tol : ℚ)
    (resNorm : ℕ → ℚ)
    (h : ∀ k, 1 ≤ k → abs_tol < resNorm k ∧ rel_tol < resNorm k / resNorm 0) :
    ∀ fuel nit, implicitFixedPointLoop abs_tol rel_tol resNorm fuel nit = none := by
  intro fuel
  induction fuel with
  | zero => intro nit; rfl
  | succ n ih =>
    intro nit
    rw [implicitFixedPointLoop]
    rw [if_pos (h (nit + 1) (Nat.le_add_left 1 nit))]
    exact ih (nit + 1)

/-- Witness for `fixedpoint_loop_no_iteration_cap`: with tolerances 1/2 and
residual norms constantly 1, the loop is still running after 7 iterations. -/
theorem fixedpoint_loop_no_iteration_cap_witness :
    implicitFixedPointLoop (1 / 2) (1 / 2) resNormStuck 7 0 = none :=
  fixedpoint_loop_no_iteration_cap (1 / 2) (1 / 2) resNormStuck
    (fun k _ => by norm_num [resNormStuck]) 7 0

/-- Claim C9: for every step of `explicit_increment` or
`implicit_increment`, the returned `v1` and `a1` are exactly the Newmark
closed forms of the solved `u1`, and re-deriving the displacement from the
returned acceleration through the Newmark displacement update reproduces
`u1` exactly, as does re-deriving it through the returned velocity
(`u1 = u0 + (dt/γ)(v1 − v0) − dt²((1−γ)/γ − (½−β))a0` is not needed: the
spec's round trip goes through `a1`, and `v1` is consistent with that same
`a1`). -/
theorem increment_newmark_roundtrip {m : ℕ} (solveU1 u0 v0 a0 : RVec m)
    (dt : ℝ) (hdt : dt ≠ 0) :
    (explicit_increment_uva solveU1 u0 v0 a0 dt).2.1 =
      newmark_v solveU1 u0 v0 a0 dt newmark_gamma newmark_beta ∧
    (explicit_increment_uva solveU1 u0 v0 a0 dt).2.2 =
      newmark_a solveU1 u0 v0 a0 dt newmark_gamma newmark_beta ∧
    implicit_increment_uva solveU1 u0 v0 a0 dt =
      explicit_increment_uva solveU1 u0 v0 a0 dt ∧
    newmark_u_from_a u0 v0 a0
      (explicit_increment_uva solveU1 u0 v0 a0 dt).2.2 dt newmark_beta =
      (explicit_increment_uva solveU1 u0 v0 a0 dt).1 ∧
    (∀ i, (explicit_increment_uva solveU1 u0 v0 a0 dt).2.1 i =
      v0 i + dt * ((1 - newmark_gamma) * a0 i
        + newmark_gamma * (explicit_increment_uva solveU1 u0 v0 a0 dt).2.2 i)) := by
  refine ⟨rfl, rfl, rfl, ?_, fun i => rfl⟩
  funext i
  simp only [explicit_increment_uva, newmark_u_from_a, newmark_a, newmark_beta]
  have hdt2 : dt ^ 2 ≠ 0 := pow_ne_zero 2 hdt
  field_simp
  ring

/-- Witness for `increment_newmark_roundtrip` on one DOF with
`u0 = 1, v0 = 0, a0 = 0, u1 = -1, dt = 1`. -/
theorem increment_newmark_roundtrip_witness :
    newmark_u_from_a cU0 cV0 cA0
      (explicit_increment_uva cUneg cU0 cV0 cA0 1).2.2 1 newmark_beta =
      (explicit_increment_uva cUneg cU0 cV0 cA0 1).1 :=
  (increment_newmark_roundtrip cUneg cU0 cV0 cA0 1 one_ne_zero).2.2.2.1

/-- Claim C10: `integrate_adaptive` installs `abs_tol = None` (with bounds
`(0.0, 0.0)`) when no `adaptive_step_prm` is given, and with `abs_tol =
None` the refinement loop of `adaptive_step` performs exactly one
`explicit_increment` at the proposed `dt`, does no error-based or
collision-based refinement (`nrefine = 0`), and returns that `dt`
unchanged: adaptive time stepping is disabled by default. -/
theorem adaptive_step_disabled_by_default {m : ℕ}
    (inc : ℝ → RVec m × RVec m × RVec m) (gap : RVec m → ℝ) (beta : ℝ)
    (bounds : ℝ × ℝ) (uva0 : RVec m × RVec m × RVec m) (fuel : ℕ)
    (dt_max : ℝ) :
    default_adaptive_step_prm = (none, 0, 0) ∧
    adaptive_step_loop inc gap beta none bounds uva0 (fuel + 1) dt_max 0 =
      some ⟨inc dt_max, dt_max,
        l2norm (newmark_error_estimate (inc dt_max).2.2 uva0.2.2 dt_max beta),
        0⟩ := by
  exact ⟨rfl, rfl⟩

/-- The l2 norm of a one-DOF vector is the absolute value of its entry. -/
theorem l2norm_single (v : RVec 1) : l2norm v = |v 0| := by
  simp [l2norm, Fin.sum_univ_one, Real.sqrt_sq_eq_abs]

/-- The counterexample increment oracle at `dt = 1`. -/
theorem cInc_one : cInc 1 = (cUneg, cV0, cA12) := if_pos rfl

/-- The counterexample increment oracle at `dt = 1/2`. -/
theorem cInc_half : cInc (1 / 2) = (cU0, cV0, cA48) := by
  unfold cInc
  rw [if_neg]
  norm_num

/-- Error-estimate norm of the first attempt: exactly 1. -/
theorem errnorm_attempt1 :
    l2norm (newmark_error_estimate cA12 cA0 1 (1 / 4)) = 1 := by
  rw [l2norm_single]
  simp only [newmark_error_estimate, cA12, cA0]
  norm_num

/-- Error-estimate norm of the bisected retry: exactly 1. -/
theorem errnorm_attempt2 :
    l2norm (newmark_error_estimate cA48 cA0 (1 / 2) (1 / 4)) = 1 := by
  rw [l2norm_single]
  simp only [newmark_error_estimate, cA48, cA0]
  norm_num

/-- The first attempt crosses the midline: the gap changes sign, the
collision check bisects the step. -/
theorem collision_attempt1 :
    refine_initial_collision cGap cU0 cUneg 1 = (true, 1 / 2) := by
  unfold refine_initial_collision
  rw [if_pos]
  norm_num [cGap, cU0, cUneg]

/-- The retry stays on the start side: no collision refinement. -/
theorem collision_attempt2 :
    refine_initial_collision cGap cU0 cU0 (1 / 2) = (false, 1 / 2) := by
  unfold refine_initial_collision
  rw [if_neg]
  norm_num [cGap, cU0]

/-- An unflagged collision check leaves `dt` unchanged. -/
theorem refine_initial_collision_not_flagged {m : ℕ} (gap : RVec m → ℝ)
    (u0 u1 : RVec m) (dt : ℝ)
    (h : (refine_initial_collision gap u0 u1 dt).1 = false) :
    refine_initial_collision gap u0 u1 dt = (false, dt) := by
  unfold refine_initial_collision at h ⊢
  by_cases hc : gap u0 * gap u1 < 0
  · rw [if_pos hc] at h
    simp at h
  · rw [if_neg hc]

/-- Claim C6, counterexample: an attempt whose error-estimate norm lies
inside `[0.8·abs_tol, 1.2·abs_tol]` is NOT always accepted without further
refinement.  With `abs_tol = 1` and bounds `(4/5, 6/5)`, the first attempt
(`dt = 1`) has error norm exactly `1`, inside the band, yet the
collision-safety check (which runs first and takes priority) flags the
midline crossing and the step is retried with the bisected `dt = 1/2`:
the returned refinement count is `1`, not `0`, and the returned `dt` is
`1/2`, not the proposed `1`. -/
theorem adaptive_step_refines_inside_band :
    l2norm (newmark_error_estimate (cInc 1).2.2 cUva0.2.2 1 (1 / 4)) = 1 ∧
    (4 / 5 : ℝ) * 1 ≤ 1 ∧ (1 : ℝ) ≤ 6 / 5 * 1 ∧
    adaptive_step_loop cInc cGap (1 / 4) (some 1) (4 / 5, 6 / 5) cUva0 3 1 0 =
      some ⟨(cU0, cV0, cA48), 1 / 2, 1, 1⟩ := by
  have herr1 : l2norm (newmark_error_estimate (cInc 1).2.2 cUva0.2.2 1 (1 / 4)) = 1 := by
    rw [cInc_one]
    exact errnorm_attempt1
  refine ⟨herr1, by norm_num, by norm_num, ?_⟩
  have h1 : adaptive_step_loop cInc cGap (1 / 4) (some 1) (4 / 5, 6 / 5) cUva0 3 1 0 =
      adaptive_step_loop cInc cGap (1 / 4) (some 1) (4 / 5, 6 / 5) cUva0 2 (1 / 2) 1 := by
    rw [adaptive_step_loop]
    simp only [cInc_one, cUva0, errnorm_attempt1, collision_attempt1]
    rw [if_neg (by norm_num)]
    simp
  have h2 : adaptive_step_loop cInc cGap (1 / 4) (some 1) (4 / 5, 6 / 5) cUva0 2 (1 / 2) 1 =
      some ⟨(cU0, cV0, cA48), 1 / 2, 1, 1⟩ := by
    rw [adaptive_step_loop]
    simp only [cInc_half, cUva0, errnorm_attempt2, collision_attempt2]
    rw [if_neg (by norm_num)]
    simp
  rw [h1, h2]

/-- Claim C6 (amended): per attempt of `adaptive_step` with `abs_tol` set,
the local error estimate is `(1/2)·dt²·(2β−1/3)·(a1−a0)`; an attempt whose
estimate's L2 norm lies inside `[abs_tol_bounds[0]·abs_tol,
abs_tol_bounds[1]·abs_tol]` AND which the collision-safety check does not
flag is accepted without further refinement; an attempt whose norm lies
outside the bounds retries with `dt` set to `(abs_tol/err_norm)^(1/3)`
times the (collision-possibly-bisected) `dt`; and an attempt inside the
bounds that the collision check flags retries with the bisected `dt`. -/
theorem adaptive_step_accept_and_refine {m : ℕ}
    (inc : ℝ → RVec m × RVec m × RVec m) (gap : RVec m → ℝ)
    (beta tol : ℝ) (bounds : ℝ × ℝ) (uva0 : RVec m × RVec m × RVec m)
    (fuel : ℕ) (dt : ℝ) (n : ℕ) :
    (∀ a1 a0 : RVec m, ∀ i, newmark_error_estimate a1 a0 dt beta i =
      1 / 2 * dt ^ 2 * (2 * beta - 1 / 3) * (a1 i - a0 i)) ∧
    (¬ (l2norm (newmark_error_estimate (inc dt).2.2 uva0.2.2 dt beta) > bounds.2 * tol ∨
        l2norm (newmark_error_estimate (inc dt).2.2 uva0.2.2 dt beta) < bounds.1 * tol) →
      (refine_initial_collision gap uva0.1 (inc dt).1 dt).1 = false →
      adaptive_step_loop inc gap beta (some tol) bounds uva0 (fuel + 1) dt n =
        some ⟨inc dt, dt,
          l2norm (newmark_error_estimate (inc dt).2.2 uva0.2.2 dt beta), n⟩) ∧
    ((l2norm (newmark_error_estimate (inc dt).2.2 uva0.2.2 dt beta) > bounds.2 * tol ∨
        l2norm (newmark_error_estimate (inc dt).2.2 uva0.2.2 dt beta) < bounds.1 * tol) →
      adaptive_step_loop inc gap beta (some tol) bounds uva0 (fuel + 1) dt n =
        adaptive_step_loop inc gap beta (some tol) bounds uva0 fuel
          ((tol / l2norm (newmark_error_estimate (inc dt).2.2 uva0.2.2 dt beta)) ^ ((1 : ℝ) / 3) *
            (refine_initial_collision gap uva0.1 (inc dt).1 dt).2) (n + 1)) ∧
    (¬ (l2norm (newmark_error_estimate (inc dt).2.2 uva0.2.2 dt beta) > bounds.2 * tol ∨
        l2norm (newmark_error_estimate (inc dt).2.2 uva0.2.2 dt beta) < bounds.1 * tol) →
      (refine_initial_collision gap uva0.1 (inc dt).1 dt).1 = true →
      adaptive_step_loop inc gap beta (some tol) bounds uva0 (fuel + 1) dt n =
        adaptive_step_loop inc gap beta (some tol) bounds uva0 fuel
          (refine_initial_collision gap uva0.1 (inc dt).1 dt).2 (n + 1)) := by
  refine ⟨fun a1 a0 i => rfl, ?_, ?_, ?_⟩
  · intro houtside hflag
    rw [adaptive_step_loop]
    rw [if_neg houtside, refine_initial_collision_not_flagged gap uva0.1 (inc dt).1 dt hflag]
    have hdt : (refine_initial_collision gap uva0.1 (inc dt).1 dt).2 = dt := by
      rw [refine_initial_collision_not_flagged gap uva0.1 (inc dt).1 dt hflag]
    simp
  · intro houtside
    rw [adaptive_step_loop]
    rw [if_pos houtside]
  · intro houtside hflag
    rw [adaptive_step_loop]
    rw [if_neg houtside, if_pos hflag]

/-- Witness for `adaptive_step_accept_and_refine`: the accept branch on the
concrete retry attempt (`dt = 1/2`, error norm 1 inside the band `[4/5,
6/5]`, no collision flag). -/
theorem adaptive_step_accept_and_refine_witness :
    adaptive_step_loop cInc cGap (1 / 4) (some 1) (4 / 5, 6 / 5) cUva0 1 (1 / 2) 1 =
      some ⟨cInc (1 / 2), 1 / 2,
        l2norm (newmark_error_estimate (cInc (1 / 2)).2.2 cUva0.2.2 (1 / 2) (1 / 4)), 1⟩ := by
  refine (adaptive_step_accept_and_refine cInc cGap (1 / 4) 1 (4 / 5, 6 / 5)
    cUva0 0 (1 / 2) 1).2.1 ?_ ?_
  · simp only [cInc_half, cUva0]
    rw [errnorm_attempt2]
    norm_num
  · simp only [cInc_half, cUva0]
    rw [collision_attempt2]

/-- A BC row of the projected system matrix acts as the identity on that
component. -/
theorem applyBCmat_mulVec_bc_row {m : ℕ} (bc : Fin m → Bool)
    (A : Matrix (Fin m) (Fin m) ℚ) (x : QVec m) (i : Fin m) (h : bc i = true) :
    ((applyBCmat bc A).mulVec x) i = x i := by
  simp only [Matrix.mulVec, Matrix.dotProduct, applyBCmat, Matrix.of_apply, h,
    if_true]
  simp [ite_mul, Finset.sum_ite_eq]

/-- Claim C1: in `decrement_adjoint`, the Jacobian block coupling the
step-(n+1,n+2) residual to `u_{n+1}` that multiplies `adj_u_{n+1}` in the
right-hand side of the adjoint solve is the assembled structural block plus
the pressure correction `dpressure_du0ᵀ · df2_dpressure`; equivalently it is
the transpose of the chain-rule-completed tangent block
`df2_du1 + df2_dpressure · dpressure_du0`. -/
theorem decrement_adjoint_pressure_correction {m p s : ℕ} (bc : Fin m → Bool)
    (lsolve : Matrix (Fin m) (Fin m) ℚ → QVec m → QVec m)
    (gamma beta : ℚ) (data : AdjointStepData m p s)
    (adj2 : QVec m × QVec m × QVec m) (dt1 dt2 : ℚ) (dcost_du1 : QVec m) :
    df2_du1_used data = (data.J2_du1)ᵀ + (data.dp_du0)ᵀ * (data.J2_dp)ᵀ ∧
    df2_du1_used data = (data.J2_du1 + data.J2_dp * data.dp_du0)ᵀ ∧
    (decrement_adjoint bc lsolve gamma beta data adj2 dt1 dt2 dcost_du1).1.1 =
      lsolve (applyBCmat bc (data.J1_du1)ᵀ)
        (applyBCvec bc (dcost_du1
          + (gamma / beta / dt1) •
            (decrement_adjoint bc lsolve gamma beta data adj2 dt1 dt2 dcost_du1).1.2.1
          + (1 / beta / dt1 ^ 2) •
            (decrement_adjoint bc lsolve gamma beta data adj2 dt1 dt2 dcost_du1).1.2.2
          - ((df2_du1_used data).mulVec adj2.1
            + (gamma / beta / dt2) • adj2.2.1
            + (1 / beta / dt2 ^ 2) • adj2.2.2))) := by
  refine ⟨rfl, ?_, rfl⟩
  rw [Matrix.transpose_add, Matrix.transpose_mul]
  rfl

/-- Claim C2: `decrement_adjoint` computes
`adj_a_n = -[(df2_da1)ᵀ·adj_u + dt2·(γ/(2β)−1)·adj_v + (1/(2β)−1)·adj_a]`
and
`adj_v_n = -[(df2_dv1)ᵀ·adj_u + (γ/β−1)·adj_v + (1/(β·dt2))·adj_a]`
(the code spells the scalars `gamma/2/beta - 1` and `1/beta/dt2`, equal to
the claim's `γ/(2β) − 1` and `1/(β·dt2)`), and the forward model's
homogeneous Dirichlet BCs hold on all three adjoint sub-states: the `a` and
`v` components are explicitly projected, and the `u` component vanishes on
BC DOFs because the BC was applied to the solved system (assuming the
linear-solve oracle actually solves it). -/
theorem decrement_adjoint_recurrence_bc {m p s : ℕ} (bc : Fin m → Bool)
    (lsolve : Matrix (Fin m) (Fin m) ℚ → QVec m → QVec m)
    (gamma beta : ℚ) (data : AdjointStepData m p s)
    (adj2 : QVec m × QVec m × QVec m) (dt1 dt2 : ℚ) (dcost_du1 : QVec m)
    (hsolve : ∀ b, (applyBCmat bc (data.J1_du1)ᵀ).mulVec
      (lsolve (applyBCmat bc (data.J1_du1)ᵀ) b) = b) :
    (decrement_adjoint bc lsolve gamma beta data adj2 dt1 dt2 dcost_du1).1.2.2 =
      applyBCvec bc ((-1 : ℚ) • (((data.J2_da1)ᵀ).mulVec adj2.1
        + (dt2 * (gamma / 2 / beta - 1)) • adj2.2.1
        + (1 / 2 / beta - 1) • adj2.2.2)) ∧
    (decrement_adjoint bc lsolve gamma beta data adj2 dt1 dt2 dcost_du1).1.2.1 =
      applyBCvec bc ((-1 : ℚ) • (((data.J2_dv1)ᵀ).mulVec adj2.1
        + (gamma / beta - 1) • adj2.2.1
        + (1 / beta / dt2) • adj2.2.2)) ∧
    gamma / 2 / beta = gamma / (2 * beta) ∧
    1 / beta / dt2 = 1 / (beta * dt2) ∧
    (∀ i, bc i = true →
      (decrement_adjoint bc lsolve gamma beta data adj2 dt1 dt2 dcost_du1).1.1 i = 0 ∧
      (decrement_adjoint bc lsolve gamma beta data adj2 dt1 dt2 dcost_du1).1.2.1 i = 0 ∧
      (decrement_adjoint bc lsolve gamma beta data adj2 dt1 dt2 dcost_du1).1.2.2 i = 0) := by
  refine ⟨rfl, rfl, div_div _ _ _, div_div _ _ _, ?_⟩
  intro i hi
  have key : ∀ v : QVec m,
      lsolve (applyBCmat bc (data.J1_du1)ᵀ) (applyBCvec bc v) i = 0 := by
    intro v
    have h1 := congrFun (hsolve (applyBCvec bc v)) i
    rw [applyBCmat_mulVec_bc_row bc _ _ i hi] at h1
    rw [h1]
    simp [applyBCvec, hi]
  refine ⟨key _, ?_, ?_⟩
  · show applyBCvec bc _ i = 0
    simp [applyBCvec, hi]
  · show applyBCvec bc _ i = 0
    simp [applyBCvec, hi]

/-- Witness for `decrement_adjoint_recurrence_bc` on one DOF, with the BC
on every DOF and the identity-returning solve oracle: all three adjoint
components vanish on the BC DOF. -/
theorem decrement_adjoint_recurrence_bc_witness :
    (decrement_adjoint bcAll qSolveId 1 1 dataW adjW 1 1 dcW).1.1 0 = 0 ∧
    (decrement_adjoint bcAll qSolveId 1 1 dataW adjW 1 1 dcW).1.2.1 0 = 0 ∧
    (decrement_adjoint bcAll qSolveId 1 1 dataW adjW 1 1 dcW).1.2.2 0 = 0 := by
  have hs : ∀ b, (applyBCmat bcAll (dataW.J1_du1)ᵀ).mulVec
      (qSolveId (applyBCmat bcAll (dataW.J1_du1)ᵀ) b) = b := by
    intro b
    funext i
    rw [applyBCmat_mulVec_bc_row bcAll _ _ i rfl]
    rfl
  exact (decrement_adjoint_recurrence_bc bcAll qSolveId 1 1 dataW adjW
    1 1 dcW hs).2.2.2.2 0 rfl

/-- Claim C3: at the terminal index the adjoint is initialized by one
linear solve with the BC-projected transposed du1-Jacobian of the final
solid residual against the BC-projected terminal cost gradient, and the
`v` and `a` adjoint components are set exactly to zero. -/
theorem adjoint_terminal_condition {m : ℕ} (bc : Fin m → Bool)
    (lsolve : Matrix (Fin m) (Fin m) ℚ → QVec m → QVec m)
    (J_du1 : Matrix (Fin m) (Fin m) ℚ) (dcost_du2 : QVec m)
    (hsolve : ∀ b, (applyBCmat bc (J_du1)ᵀ).mulVec
      (lsolve (applyBCmat bc (J_du1)ᵀ) b) = b) :
    (adjoint_terminal_init bc lsolve J_du1 dcost_du2).1 =
      lsolve (applyBCmat bc (J_du1)ᵀ) (applyBCvec bc dcost_du2) ∧
    (applyBCmat bc (J_du1)ᵀ).mulVec
      (adjoint_terminal_init bc lsolve J_du1 dcost_du2).1 =
      applyBCvec bc dcost_du2 ∧
    (adjoint_terminal_init bc lsolve J_du1 dcost_du2).2.1 = 0 ∧
    (adjoint_terminal_init bc lsolve J_du1 dcost_du2).2.2 = 0 :=
  ⟨rfl, hsolve _, rfl, rfl⟩

/-- Witness for `adjoint_terminal_condition` on one DOF. -/
theorem adjoint_terminal_condition_witness :
    (adjoint_terminal_init bcAll qSolveId termJW dcostNW).2.1 = 0 ∧
    (adjoint_terminal_init bcAll qSolveId termJW dcostNW).2.2 = 0 := by
  have hs : ∀ b, (applyBCmat bcAll (termJW)ᵀ).mulVec
      (qSolveId (applyBCmat bcAll (termJW)ᵀ) b) = b := by
    intro b
    funext i
    rw [applyBCmat_mulVec_bc_row bcAll _ _ i rfl]
    rfl
  exact ⟨(adjoint_terminal_condition bcAll qSolveId termJW dcostNW hs).2.2.1,
    (adjoint_terminal_condition bcAll qSolveId termJW dcostNW hs).2.2.2⟩

/-- Claim C4: the gradient accumulator starts at the zero vector, receives
`-(df_dparam)ᵀ · adj_u` at the terminal index, and each backward iteration
subtracts `(df1_dparam)ᵀ · adj_u`; the final value is the initial terminal
contribution plus `adjointContrib`, whose recursion shows it is exactly the
sum over processed steps of `-(dresidual/dparameter)ᵀ · adj_u` — the `adj_v`
and `adj_a` components never enter a summand. -/
theorem adjoint_gradient_accumulation {m p s : ℕ} (bc : Fin m → Bool)
    (lsolve : Matrix (Fin m) (Fin m) ℚ → QVec m → QVec m)
    (gamma beta : ℚ) (steps : ℕ → AdjointStepData m p s) (dts : ℕ → ℚ)
    (dcosts : ℕ → QVec m) (N : ℕ)
    (terminalJ : Matrix (Fin m) (Fin m) ℚ)
    (terminal_dfparam : Matrix (Fin m) (Fin s) ℚ) (dcostN : QVec m) :
    adjoint_full bc lsolve gamma beta steps dts dcosts N terminalJ
      terminal_dfparam dcostN =
      ((0 : Fin s → ℚ) + (-1 : ℚ) • ((terminal_dfparam)ᵀ.mulVec
        (adjoint_terminal_init bc lsolve terminalJ dcostN).1) + 0)
      + adjointContrib bc lsolve gamma beta steps dts dcosts (N - 2)
          (adjoint_terminal_init bc lsolve terminalJ dcostN) ∧
    (∀ k adj2 grad,
      (adjoint_gradient_loop bc lsolve gamma beta steps dts dcosts k adj2 grad).2 =
        grad + adjointContrib bc lsolve gamma beta steps dts dcosts k adj2) ∧
    (∀ k adj2,
      adjointContrib bc lsolve gamma beta steps dts dcosts (k + 1) adj2 =
        (-1 : ℚ) • (((steps (k + 1)).J1_dparam)ᵀ.mulVec
          (decrement_adjoint bc lsolve gamma beta (steps (k + 1)) adj2
            (dts (k + 1)) (dts (k + 2)) (dcosts (k + 1))).1.1)
        + adjointContrib bc lsolve gamma beta steps dts dcosts k
            (decrement_adjoint bc lsolve gamma beta (steps (k + 1)) adj2
              (dts (k + 1)) (dts (k + 2)) (dcosts (k + 1))).1) := by
  have hloop : ∀ k adj2 grad,
      (adjoint_gradient_loop bc lsolve gamma beta steps dts dcosts k adj2 grad).2 =
        grad + adjointContrib bc lsolve gamma beta steps dts dcosts k adj2 := by
    intro k
    induction k with
    | zero =>
      intro adj2 grad
      simp [adjoint_gradient_loop, adjointContrib]
    | succ n ih =>
      intro adj2 grad
      simp only [adjoint_gradient_loop, adjointContrib]
      rw [ih]
      funext i
      simp only [Pi.add_apply, Pi.sub_apply, Pi.smul_apply, smul_eq_mul]
      ring
  exact ⟨hloop (N - 2) _ _, hloop, fun k adj2 => rfl⟩

end VfFem
